import Mathlib

/-!
# Verification of `mapping_atlas_by_voxel.ipynb`

A shallow embedding, in Lean 4, of the numeric pipeline of the notebook
`src/mapping_atlas_by_voxel.ipynb` (AllenInstitute/3D-atlas-reverse-mapping),
which maps 3D atlas structure annotations onto one 2D histological section.

Modelling conventions:
* machine floats become exact rationals (`ℚ`); `np.round` becomes the
  round-half-to-even function `roundHalfEven` below, which is numpy's
  documented rounding rule;
* numpy boolean rasters become `Finset (ℤ × ℤ)` of set pixels; RGB images
  become total functions `(ℤ × ℤ) → RGB`;
* external collaborators (AllenSDK structure tree data, SimpleITK field
  sampling) enter as data: a structure's `ancestors`/`color`/`voxelPoints`
  are fields of `SNode`, and the displacement-field sample at a physical
  point is an opaque function `disp : Point3 → Point3` (SimpleITK's
  `DisplacementFieldTransform.TransformPoint p = p + sample p`).
-/

namespace AtlasMap

/-- A pixel position `(row, col)`, matching numpy index order. -/
abbrev Pix := ℤ × ℤ

/-- A 3D point `(x, y, z)` with exact rational coordinates. -/
abbrev Point3 := ℚ × ℚ × ℚ

/-- An RGB color with integer channels. -/
structure RGB where
  r : ℤ
  g : ℤ
  b : ℤ
deriving DecidableEq

/-- A (conceptually unbounded) RGB image; the notebook's arrays only ever
read and write pixels inside the image rectangle. -/
abbrev Img := Pix → RGB

/-! ## Rounding (numpy `np.round`: round half to even) -/

/-- Numpy rounding `np.round`: round to the nearest integer, ties to the even integer. -/
def roundHalfEven (q : ℚ) : ℤ :=
  if q - ⌊q⌋ < 1/2 then ⌊q⌋
  else if 1/2 < q - ⌊q⌋ then ⌊q⌋ + 1
  else if ⌊q⌋ % 2 = 0 then ⌊q⌋ else ⌊q⌋ + 1

/-! ## Section-plane selection (cell-28 / cell-34)

`sections = np.round(tfp[:,2]/100)`; `loc = np.where(sections == section_no)`.
The transformed points restricted to `loc` are exactly the points whose
`z`-coordinate, divided by the inter-section spacing 100 and rounded, equals
the target section number. -/

/-- The z (depth) coordinate of a transformed point. -/
def zCoord (p : Point3) : ℚ := p.2.2

/-- The atlas section that a transformed point falls on:
`np.round(z / 100)` (cell-28 and cell-34). -/
def sectionIndex (z : ℚ) : ℤ := roundHalfEven (z / 100)

/-- The selection `tfp[loc]`: the transformed points kept for the target section
(`np.where(np.round(tfp[:,2]/100) == section_no)`), in order. -/
def selectForSection (secNo : ℤ) (tfp : List Point3) : List Point3 :=
  tfp.filter (fun p => sectionIndex (zCoord p) == secNo)

/-! ## Reference-to-specimen coordinate mapper (cell-21, cell-28, cell-34)

`dfp = np.array(list(map(dfmfld_transform.TransformPoint, points*25)))`
`tfp = np.array(list(map(aff_trans.TransformPoint, dfp)))`

The volume resolution is 25 (from `MouseConnectivityCache(resolution=25)`). -/

/-- A 3D affine transform: 3×3 matrix plus translation, as set by
`sitk.AffineTransform(3).SetParameters` (row-major matrix entries followed
by the translation; the default center is the origin). -/
structure Affine where
  m00 : ℚ
  m01 : ℚ
  m02 : ℚ
  m10 : ℚ
  m11 : ℚ
  m12 : ℚ
  m20 : ℚ
  m21 : ℚ
  m22 : ℚ
  t0 : ℚ
  t1 : ℚ
  t2 : ℚ

/-- SimpleITK `AffineTransform.TransformPoint`: the linear map followed by the offset. -/
def Affine.apply (A : Affine) (p : Point3) : Point3 :=
  (A.m00 * p.1 + A.m01 * p.2.1 + A.m02 * p.2.2 + A.t0,
   A.m10 * p.1 + A.m11 * p.2.1 + A.m12 * p.2.2 + A.t1,
   A.m20 * p.1 + A.m21 * p.2.1 + A.m22 * p.2.2 + A.t2)

/-- Componentwise sum of two 3D points. -/
def addP (p q : Point3) : Point3 := (p.1 + q.1, p.2.1 + q.2.1, p.2.2 + q.2.2)

/-- Scaling a 3D point by a rational factor (`points * 25`). -/
def scaleMul (c : ℚ) (p : Point3) : Point3 := (c * p.1, c * p.2.1, c * p.2.2)

/-- SimpleITK `DisplacementFieldTransform.TransformPoint`: the point plus the
displacement-field vector sampled at the point.  The sampling function `d`
(trilinear interpolation into the field loaded from `dfmfld.mhd`) is
external SimpleITK data, taken as a parameter. -/
def dispApply (d : Point3 → Point3) (p : Point3) : Point3 := addP p (d p)

/-- The two-stage transform of cell-28/cell-34: scale voxel coordinates by
the volume resolution 25, map all of them through the displacement-field
transform (`dfp`), then map through the affine transform (`tfp`). -/
def transformPoints (d : Point3 → Point3) (A : Affine) (pts : List Point3) :
    List Point3 :=
  ((pts.map (fun p => dispApply d (scaleMul 25 p))).map A.apply)

/-! ## Projection to image pixels (cell-24, cell-34)

cell-24: `twoD = 1.0/details[0]['sub_images'][0]['resolution']`,
`size = 25*twoD/(2**4)`.
cell-34: `mapped_points = tfp[loc,:2]*twoD/(2**4)`. -/

/-- The factor `twoD` as computed in cell-24: the reciprocal of the section image's
physical pixel size (`resolution`, in µm per full-resolution pixel). -/
def codeTwoD (pixelSize : ℚ) : ℚ := 1 / pixelSize

/-- The quantity `size = 25*twoD/(2**4)` (cell-24): the square footprint increment. -/
def sizeConst (twoD : ℚ) : ℚ := 25 * twoD / 2 ^ 4

/-- The projection `tfp[loc,:2]*twoD/(2**4)`: project a selected transformed point's
`(x, y)` physical coordinates to (downsample-4) image pixel coordinates. -/
def mapToPixel (twoD : ℚ) (p : Point3) : ℚ × ℚ :=
  (p.1 * twoD / 2 ^ 4, p.2.1 * twoD / 2 ^ 4)

/-- Modelled from the spec (4.4): "scale factor = (image
physical-pixel-size / native volume resolution) adjusted for downsample
level", reading "adjusted for downsample level" as division by `2 ^ 4`
(downsample 4), for comparison against the scale the code applies. -/
def specScale (pixelSize : ℚ) : ℚ := pixelSize / 25 / 2 ^ 4

/-! ## Rasterization (cell-34)

`blank[rounded_mapped_point[1]:rounded_next_point[1],
       rounded_mapped_point[0]:rounded_next_point[0]] = 1`
followed by `area = binary_closing(binary_fill_holes(blank))`.

Boolean rasters over the `H × W` image array become `Finset Pix`:
a raster is the set of its pixels equal to 1. -/

/-- Normalize one bound of a Python slice `l[a:b]` over a length-`n` axis:
negative indices count from the end, then the bound is clamped to `[0, n]`. -/
def sliceIdx (n : ℕ) (i : ℤ) : ℤ :=
  min (max (if i < 0 then i + n else i) 0) n

/-- The set of indices a Python slice `l[a:b]` selects on a length-`n` axis. -/
def sliceRange (n : ℕ) (a b : ℤ) : Finset ℤ :=
  Finset.Ico (sliceIdx n a) (sliceIdx n b)

/-- The pixels set by `blank[rmp[1]:rnp[1], rmp[0]:rnp[0]] = 1` where `rmp`
and `rnp` are the rounded mapped point and rounded next point (`(x, y)`
order: component 1 is the row bound, component 0 the column bound). -/
def footprint (H W : ℕ) (rmp rnp : ℤ × ℤ) : Finset Pix :=
  (sliceRange H rmp.2 rnp.2) ×ˢ (sliceRange W rmp.1 rnp.1)

/-- Rounding `np.round` applied to a mapped 2D point `(x, y)`. -/
def roundPix (m : ℚ × ℚ) : ℤ × ℤ := (roundHalfEven m.1, roundHalfEven m.2)

/-- The `blank` raster after the footprint loop of cell-34: starting from
`np.zeros`, each mapped point paints the square slice from its rounding to
the rounding of `mapped_point + size`. -/
def blankOf (H W : ℕ) (size : ℚ) (mapped : List (ℚ × ℚ)) : Finset Pix :=
  mapped.foldl
    (fun acc m => acc ∪ footprint H W (roundPix m) (roundPix (m.1 + size, m.2 + size)))
    ∅

/-- The pixel rectangle of an `H × W` image array. -/
def rect (H W : ℕ) : Finset Pix :=
  (Finset.Ico (0 : ℤ) H) ×ˢ (Finset.Ico (0 : ℤ) W)

/-- The image rectangle padded by the one-pixel border ring that
`scipy.ndimage.binary_fill_holes` works in. -/
def bigRect (H W : ℕ) : Finset Pix :=
  (Finset.Ico (-1 : ℤ) (H + 1)) ×ˢ (Finset.Ico (-1 : ℤ) (W + 1))

/-- The cross-shaped (4-connected) structuring element generated by
`scipy.ndimage.generate_binary_structure(2, 1)`, the default of
`binary_erosion`, `binary_dilation`, `binary_closing` and
`binary_fill_holes`: the pixel itself and its four edge neighbours. -/
def crossNbrs (p : Pix) : List Pix :=
  [p, (p.1 + 1, p.2), (p.1 - 1, p.2), (p.1, p.2 + 1), (p.1, p.2 - 1)]

/-- One step of the flood used by `binary_fill_holes`: grow the marked set
`m` into any complement pixel (`comp`) adjacent to it. -/
def floodStep (comp : Finset Pix) (m : Finset Pix) : Finset Pix :=
  m ∪ comp.filter (fun p => ∃ q ∈ crossNbrs p, q ∈ m)

/-- The background pixels reachable from outside the image: the flood of
the complement of `blank`, seeded at the padding ring and iterated to its
fixpoint (`(H+2)*(W+2)` steps bound the number of markable pixels). -/
def flood (H W : ℕ) (blank : Finset Pix) : Finset Pix :=
  (floodStep (bigRect H W \ blank))^[(H + 2) * (W + 2)] (bigRect H W \ rect H W)

/-- Scipy `ndimage.binary_fill_holes`: the input plus every in-image pixel
not reachable from the border through the background. -/
def fillHoles (H W : ℕ) (blank : Finset Pix) : Finset Pix :=
  blank ∪ (rect H W).filter (fun p => p ∉ flood H W blank)

/-- Scipy `ndimage.binary_dilation` (cross structuring element,
`border_value=0`): in-image pixels with some cross neighbour set. -/
def binDilate (H W : ℕ) (s : Finset Pix) : Finset Pix :=
  (rect H W).filter (fun p => ∃ q ∈ crossNbrs p, q ∈ s)

/-- Scipy `ndimage.binary_erosion` (cross structuring element,
`border_value=0`): pixels all of whose cross neighbours are set.  Because
the cross contains the centre, these are exactly the pixels of `s` whose
neighbours are all in `s`, for any raster `s` inside the image. -/
def binErode (s : Finset Pix) : Finset Pix :=
  s.filter (fun p => ∀ q ∈ crossNbrs p, q ∈ s)

/-- The raster `area = ndi.binary_closing(ndi.binary_fill_holes(blank))` (cell-34);
`binary_closing` is a dilation followed by an erosion. -/
def areaOf (H W : ℕ) (blank : Finset Pix) : Finset Pix :=
  binErode (binDilate H W (fillHoles H W blank))

/-- The boundary raster of cell-34: `inner` is six iterated binary
erosions of `area`, and `boundary = area - inner`; since each erosion
output is a subset of its input, the pixels where the difference is `1`
are exactly `area \ inner`. -/
def boundaryMaskOf (area : Finset Pix) : Finset Pix :=
  area \ (binErode^[6] area)

/-! ## Structures, painting and the cell-34 loop -/

/-- One atlas structure as the loop sees it, with the data the AllenSDK
collaborators supply: its id, its ancestor-id chain
(`rsp.structure_tree.ancestor_ids`, the path from the structure to the
ontology root, the structure's own id included), its canonical color
(`colormap[struct]`), and the voxel coordinates of its 3D mask
(`np.where(rsp.make_structure_mask([struct]))`, as floats). -/
structure SNode where
  sid : ℤ
  ancestors : List ℤ
  color : RGB
  voxelPoints : List Point3
deriving DecidableEq

/-- The writes `image[:,:,i][mask] = color[i]` for the three channels: overwrite the
pixels of `mask` with `c`, leave every other pixel unchanged. -/
def paintMask (mask : Finset Pix) (c : RGB) (img : Img) : Img :=
  fun p => if p ∈ mask then c else img p

/-- The fixed highlight color of the boundary image writes of cell-34
(`boundary_image[:,:,i][boundary_mask] = 0` for all channels, then
`boundary_image[:,:,2][boundary_mask] = 255`). -/
def boundaryColor : RGB := ⟨0, 0, 255⟩

/-- The immutable per-run context of the cell-34 loop. `regions` is the
list the loop reads as `regions` (the regions-of-interest ids; see
`addRegions` for the cell-30 naming slip).  `rootPoints` are the root-mask
voxel points of cell-27, whose transform cell-28 computed and whose
selected points the `struct == 997` branch of cell-34 reuses. -/
structure Env where
  H : ℕ
  W : ℕ
  secNo : ℤ
  twoD : ℚ
  regions : List ℤ
  disp : Point3 → Point3
  aff : Affine
  rootPoints : List Point3
  srcImg : Img

/-- The transformed points of a structure restricted to the target
section: cell-34's `tfp[loc]`. -/
def selectedPoints (env : Env) (pts : List Point3) : List Point3 :=
  selectForSection env.secNo (transformPoints env.disp env.aff pts)

/-- Cell-34's rasterization of a list of already-selected transformed
points: map to pixel coordinates, paint the square footprints, fill holes
and close. -/
def maskFromSelected (env : Env) (sel : List Point3) : Finset Pix :=
  areaOf env.H env.W
    (blankOf env.H env.W (sizeConst env.twoD) (sel.map (mapToPixel env.twoD)))

/-- The rasterized area mask of one (non-root) structure. -/
def maskOf (env : Env) (s : SNode) : Finset Pix :=
  maskFromSelected env (selectedPoints env s.voxelPoints)

/-- The loop-carried state of cell-34: the current selected transformed
points (`tfp`/`loc`, reused by the `struct == 997` branch), the two output
images, and the per-structure rasters painted so far -- `masks` records
each iteration's `(struct, area)` pair and `bmasks` each `(struct,
boundary)` pair drawn for a region of interest. -/
structure LoopState where
  sel : List Point3
  areaImg : Img
  boundaryImg : Img
  masks : List (ℤ × Finset Pix)
  bmasks : List (ℤ × Finset Pix)

/-- One iteration of the cell-34 loop for structure `s`: recompute the
transform and section selection unless `s` is the root (id 997, which
reuses the selected root points), rasterize, paint the area mask with the
structure's color, and, when `s` is a region of interest, paint the
six-erosion boundary in `boundaryColor`. -/
def processStruct (env : Env) (st : LoopState) (s : SNode) : LoopState :=
  let sel := if s.sid ≠ 997 then selectedPoints env s.voxelPoints else st.sel
  let area := maskFromSelected env sel
  if s.sid ∈ env.regions then
    { sel := sel
      areaImg := paintMask area s.color st.areaImg
      boundaryImg := paintMask (boundaryMaskOf area) boundaryColor st.boundaryImg
      masks := st.masks ++ [(s.sid, area)]
      bmasks := st.bmasks ++ [(s.sid, boundaryMaskOf area)] }
  else
    { sel := sel
      areaImg := paintMask area s.color st.areaImg
      boundaryImg := st.boundaryImg
      masks := st.masks ++ [(s.sid, area)]
      bmasks := st.bmasks }

/-- The state cell-34 starts from: both images are copies of the section
image `arr` (cell-33), and the current selected points are the root-mask
points that cell-28 selected for the section. -/
def initState (env : Env) : LoopState :=
  { sel := selectedPoints env env.rootPoints
    areaImg := env.srcImg
    boundaryImg := env.srcImg
    masks := []
    bmasks := [] }

/-- Cell-34's loop over an already-ordered structure list. -/
def runLoop (env : Env) (l : List SNode) : LoopState :=
  l.foldl (processStruct env) (initState env)

/-- The comparison cell-30 sorts by:
`np.argsort(np.array(list(map(lambda x: len(x), ancestor_ids(...)))))`,
i.e. ascending number of ancestors. -/
def depthLE (a b : SNode) : Prop := a.ancestors.length ≤ b.ancestors.length

instance : DecidableRel depthLE := fun a b =>
  inferInstanceAs (Decidable (a.ancestors.length ≤ b.ancestors.length))

/-- The order `structures_in_section[sorted_indx]`: the structures ordered by
ascending ancestor-chain length.  `np.argsort` is modelled by a comparison
sort on the same key (the source fixes no tie order). -/
def sortStructs (l : List SNode) : List SNode :=
  List.insertionSort depthLE l

/-- Cell-30's union loop followed by cell-34's sorted loop.  Note on the
source: cell-30 iterates `for region in regions`, but the enclosing
notebook only ever defines `regions` locally inside `get_structure_ids`
(cell-16); the list bound at notebook scope is `regions_of_interest`
(cell-17), which cell-29's text says is being added here.  The model binds
the loop's `regions` to that intended list. -/
def runPipeline (env : Env) (nodes : List SNode) : LoopState :=
  runLoop env (sortStructs nodes)

/-! ## Structure discovery union (cell-16, cell-17, cell-30) -/

/-- The function `get_structure_ids` (cell-16): look up each acronym in
`acrnm_map`, accumulating the ids in order. -/
def get_structure_ids (acrnmMap : String → ℤ) (acrnms : List String) : List ℤ :=
  acrnms.foldl (fun acc a => acc ++ [acrnmMap a]) []

/-- The acronym-to-id entries cell-18 records for the five regions of
interest (`regions_of_interest` evaluates to `[1008, 1014, 218, 1029,
215]`); external AllenSDK data. -/
def acrnmMapData : String → ℤ := fun a =>
  if a = "GENd" then 1008
  else if a = "GENv" then 1014
  else if a = "LP" then 218
  else if a = "POL" then 1029
  else if a = "APN" then 215
  else 0

/-- The list `regions_of_interest = get_structure_ids(['GENd','GENv','LP','POL','APN'])`. -/
def regions_of_interest : List ℤ :=
  get_structure_ids acrnmMapData ["GENd", "GENv", "LP", "POL", "APN"]

/-- The cell-30 union loop: append each requested region id not already
among the discovered structure ids
(`structures_in_section = np.hstack((structures_in_section, region))`),
testing membership against the grown list. -/
def addRegions (structs regionIds : List ℤ) : List ℤ :=
  regionIds.foldl (fun acc r => if r ∈ acc then acc else acc ++ [r]) structs

/-! ## Output images and the full run (cell-34 tail) -/

/-- The per-pixel blend of `Image.alpha_composite(cbg, fg)` with the
opaque section image as background and the area image at alpha 80
(cell-34): `out = (fg*80 + bg*(255-80)) / 255`, in PIL's fixed-point
arithmetic, modelled with floor division. -/
def alphaBlend (bgc fgc : ℤ) : ℤ := (fgc * 80 + bgc * 175) / 255

/-- The image saved as `color_composite.png`: the alpha blend of the source image and the
area image. -/
def compositeImg (bg fg : Img) : Img := fun p =>
  ⟨alphaBlend (bg p).r (fg p).r, alphaBlend (bg p).g (fg p).g,
   alphaBlend (bg p).b (fg p).b⟩

/-- Everything a run persists or exposes: the per-structure area rasters
and the three saved images. -/
structure RunOut where
  masks : List (ℤ × Finset Pix)
  areaImg : Img
  boundaryImg : Img
  composite : Img

/-- Big-step execution of the pipeline from the discovered structures
onward: union in the regions of interest (cell-30), order by ancestor
depth (cell-30), run the cell-34 loop, and composite (cell-34 tail).
`lookup` is the AllenSDK structure tree, giving each id its node data. -/
inductive Exec :
    Env → (ℤ → SNode) → List ℤ → RunOut → Prop where
  | run (env : Env) (lookup : ℤ → SNode) (ids : List ℤ)
      (nodes : List SNode) (ordered : List SNode) (st : LoopState) (comp : Img)
      (hnodes : nodes = (addRegions ids env.regions).map lookup)
      (hord : ordered = sortStructs nodes)
      (hst : st = runLoop env ordered)
      (hcomp : comp = compositeImg env.srcImg st.areaImg) :
      Exec env lookup ids ⟨st.masks, st.areaImg, st.boundaryImg, comp⟩

/-! ## Output files (cell-34 tail)

The three saves happen sequentially, in a fixed order, with no error
handling around them. -/

/-- The order in which cell-34 saves the output files. -/
def outputSaveOrder : List String :=
  ["area.png", "boundary.png", "color_composite.png"]

/-- The files persisted if the run stops (for any reason) right after the
first `k` sequential saves: an uncaught exception aborts the rest of the
cell, leaving the earlier saves on disk. -/
def persistedAfter (k : ℕ) : List String := outputSaveOrder.take k

/-! ## Auxiliary definitions for the proofs and concrete instances -/

/-- The color the area image holds at `p` after painting the structures of
`l` in order over a start value `dflt`: the color of the last structure in
`l` whose mask covers `p` (used to characterize the cell-34 area fold). -/
def lastCoverColor (env : Env) (p : Pix) : List SNode → RGB → RGB
  | [], dflt => dflt
  | c :: rest, dflt =>
      lastCoverColor env p rest (if p ∈ maskOf env c then c.color else dflt)

instance : IsTotal SNode depthLE :=
  ⟨fun a b => Nat.le_total a.ancestors.length b.ancestors.length⟩

instance : IsTrans SNode depthLE :=
  ⟨fun _ _ _ h1 h2 => Nat.le_trans h1 h2⟩

/-- A sample displacement-field sampling function. -/
def dWit : Point3 → Point3 := fun q => (q.2.2, 1, q.1)

/-- A sample affine transform. -/
def affWit : Affine := ⟨1, 0, 0, 0, 1, 0, 0, 0, 1, 2, 3, 4⟩

/-- The identity affine transform. -/
def affId : Affine := ⟨1, 0, 0, 0, 1, 0, 0, 0, 1, 0, 0, 0⟩

/-- A zero displacement field. -/
def dZero : Point3 → Point3 := fun _ => (0, 0, 0)

/-- A concrete environment on a 3×3 image: section 1, `twoD = 16/25` so a
voxel point `(x, y, 4)` lands on pixel column `x`, row `y` with a
one-pixel footprint. -/
def envA : Env :=
  { H := 3, W := 3, secNo := 1, twoD := 16/25, regions := []
    disp := dZero, aff := affId, rootPoints := [], srcImg := fun _ => ⟨0, 0, 0⟩ }

/-- A parent structure (id 5, child of the root): one voxel at `(1, 1, 4)`. -/
def nodeA : SNode := ⟨5, [997, 5], ⟨10, 20, 30⟩, [(1, 1, 4)]⟩

/-- A child structure of `nodeA` (id 6): the same voxel. -/
def nodeB : SNode := ⟨6, [997, 5, 6], ⟨40, 50, 60⟩, [(1, 1, 4)]⟩

/-- A child structure of `nodeB` (id 7, grandchild of `nodeA`): the same
voxel again, giving three nested structures covering one pixel. -/
def nodeC : SNode := ⟨7, [997, 5, 6, 7], ⟨70, 80, 90⟩, [(1, 1, 4)]⟩

/-- A 1×1-image environment with one region of interest (id 5). -/
def envB : Env :=
  { H := 1, W := 1, secNo := 0, twoD := 0, regions := [5]
    disp := dZero, aff := affId, rootPoints := [], srcImg := fun _ => ⟨1, 2, 3⟩ }

/-- A structure with an empty 3D mask (no voxel points at all, hence none
landing on any section). -/
def nodeEmpty : SNode := ⟨5, [997, 5], ⟨7, 8, 9⟩, []⟩

/-- A structure-tree lookup sending every id to `nodeEmpty`. -/
def lookupEmpty : ℤ → SNode := fun _ => nodeEmpty

/-- The canonical output of the run of `envB` on no discovered ids. -/
def outB : RunOut :=
  ⟨(runLoop envB (sortStructs ((addRegions [] envB.regions).map lookupEmpty))).masks,
   (runLoop envB (sortStructs ((addRegions [] envB.regions).map lookupEmpty))).areaImg,
   (runLoop envB (sortStructs ((addRegions [] envB.regions).map lookupEmpty))).boundaryImg,
   compositeImg envB.srcImg
     (runLoop envB (sortStructs ((addRegions [] envB.regions).map lookupEmpty))).areaImg⟩

/-! ## Basic lemmas -/

/-- The spec's demonstration z-coordinates `[6185.3, 6201.8, 6250.0]` as
transformed points. -/
def demoZ : List Point3 :=
  [(0, 0, 61853/10), (0, 0, 62018/10), (0, 0, 6250)]

lemma sectionIndex_demo1 : sectionIndex (61853/10 : ℚ) = 62 := by
  rw [sectionIndex, roundHalfEven]
  norm_num

lemma sectionIndex_demo2 : sectionIndex (62018/10 : ℚ) = 62 := by
  rw [sectionIndex, roundHalfEven]
  norm_num

lemma sectionIndex_demo3 : sectionIndex (6250 : ℚ) = 62 := by
  rw [sectionIndex, roundHalfEven]
  norm_num

lemma selectForSection_demo : selectForSection 62 demoZ = demoZ := by
  rw [selectForSection, List.filter_eq_self]
  intro q hq
  fin_cases hq <;>
    simp [zCoord, sectionIndex_demo1, sectionIndex_demo2, sectionIndex_demo3]

lemma binErode_subset (s : Finset Pix) : binErode s ⊆ s :=
  Finset.filter_subset _ s

lemma binErode_iter_subset (n : ℕ) (s : Finset Pix) : binErode^[n] s ⊆ s := by
  induction n generalizing s with
  | zero => exact fun p hp => hp
  | succ k ih =>
      rw [Function.iterate_succ_apply]
      exact fun p hp => binErode_subset s (ih (binErode s) hp)


/-! ## Morphology lemmas: flood coverage and empty rasters -/

lemma floodStep_expand (comp m : Finset Pix) : m ⊆ floodStep comp m :=
  Finset.subset_union_left

lemma seed_subset_iter (comp seed : Finset Pix) (k : ℕ) :
    seed ⊆ (floodStep comp)^[k] seed := by
  induction k with
  | zero => exact fun p hp => hp
  | succ n ih =>
      rw [Function.iterate_succ_apply']
      exact fun p hp => floodStep_expand comp _ (ih hp)

lemma mem_bigRect (H W : ℕ) (p : Pix) :
    p ∈ bigRect H W ↔ (-1 ≤ p.1 ∧ p.1 < H + 1) ∧ (-1 ≤ p.2 ∧ p.2 < W + 1) := by
  rw [bigRect, Finset.mem_product]
  simp [Finset.mem_Ico]

lemma mem_rect (H W : ℕ) (p : Pix) :
    p ∈ rect H W ↔ (0 ≤ p.1 ∧ p.1 < H) ∧ (0 ≤ p.2 ∧ p.2 < W) := by
  rw [rect, Finset.mem_product]
  simp [Finset.mem_Ico]

/-- Every pixel of the padded rectangle is flooded once the fuel exceeds
its distance to the left border ring (walking left, column by column). -/
lemma flood_reach (H W : ℕ) (k : ℕ) (p : Pix)
    (hpB : p ∈ bigRect H W) (hk : (p.2 + 2).toNat ≤ k) :
    p ∈ (floodStep (bigRect H W))^[k] (bigRect H W \ rect H W) := by
  induction k generalizing p with
  | zero =>
      exfalso
      have h2 := ((mem_bigRect H W p).mp hpB).2
      omega
  | succ k ih =>
      by_cases hrect : p ∈ rect H W
      · have hpr := (mem_rect H W p).mp hrect
        by_cases hk2 : (p.2 + 2).toNat ≤ k
        · rw [Function.iterate_succ_apply']
          exact floodStep_expand _ _ (ih p hpB hk2)
        · have hq : (p.1, p.2 - 1) ∈
              (floodStep (bigRect H W))^[k] (bigRect H W \ rect H W) := by
            apply ih
            · rw [mem_bigRect]
              constructor <;> constructor <;> simp <;> omega
            · simp
              omega
          rw [Function.iterate_succ_apply', floodStep]
          apply Finset.mem_union_right
          rw [Finset.mem_filter]
          refine ⟨hpB, ⟨(p.1, p.2 - 1), ?_, hq⟩⟩
          simp [crossNbrs]
      · exact seed_subset_iter _ _ (k + 1) (Finset.mem_sdiff.mpr ⟨hpB, hrect⟩)

lemma rect_subset_flood_empty (H W : ℕ) : rect H W ⊆ flood H W ∅ := by
  intro p hp
  rw [flood, Finset.sdiff_empty]
  have hpr := (mem_rect H W p).mp hp
  apply flood_reach
  · rw [mem_bigRect]
    omega
  · have h1 : (p.2 + 2).toNat ≤ W + 2 := by omega
    exact le_trans h1 (Nat.le_mul_of_pos_left (W + 2) (by omega))

lemma fillHoles_empty (H W : ℕ) : fillHoles H W ∅ = ∅ := by
  rw [fillHoles, Finset.empty_union, Finset.filter_eq_empty_iff]
  intro p hp
  exact fun hn => hn (rect_subset_flood_empty H W hp)

lemma binDilate_empty (H W : ℕ) : binDilate H W ∅ = ∅ := by
  rw [binDilate, Finset.filter_eq_empty_iff]
  intro p _
  simp

lemma binErode_empty : binErode ∅ = ∅ := by
  rw [binErode]
  exact Finset.filter_empty _

lemma maskFromSelected_nil (env : Env) : maskFromSelected env [] = ∅ := by
  rw [maskFromSelected]
  have hblank :
      blankOf env.H env.W (sizeConst env.twoD) (List.map (mapToPixel env.twoD) []) = ∅ := rfl
  rw [hblank, areaOf, fillHoles_empty, binDilate_empty, binErode_empty]

lemma paintMask_empty (c : RGB) (img : Img) : paintMask ∅ c img = img := by
  funext p
  simp [paintMask]

lemma boundaryMaskOf_empty : boundaryMaskOf ∅ = ∅ := by
  simp [boundaryMaskOf]

/-! ## Loop-step lemmas -/

lemma processStruct_masks (env : Env) (st : LoopState) (s : SNode) :
    (processStruct env st s).masks
      = st.masks ++ [(s.sid,
          maskFromSelected env
            (if s.sid ≠ 997 then selectedPoints env s.voxelPoints else st.sel))] := by
  rw [processStruct]
  by_cases hreg : s.sid ∈ env.regions <;> simp [hreg]

lemma processStruct_areaImg (env : Env) (st : LoopState) (s : SNode) :
    (processStruct env st s).areaImg
      = paintMask
          (maskFromSelected env
            (if s.sid ≠ 997 then selectedPoints env s.voxelPoints else st.sel))
          s.color st.areaImg := by
  rw [processStruct]
  by_cases hreg : s.sid ∈ env.regions <;> simp [hreg]

lemma processStruct_boundaryImg (env : Env) (st : LoopState) (s : SNode) :
    (processStruct env st s).boundaryImg
      = if s.sid ∈ env.regions then
          paintMask
            (boundaryMaskOf (maskFromSelected env
              (if s.sid ≠ 997 then selectedPoints env s.voxelPoints else st.sel)))
            boundaryColor st.boundaryImg
        else st.boundaryImg := by
  rw [processStruct]
  by_cases hreg : s.sid ∈ env.regions <;> simp [hreg]

lemma processStruct_bmasks (env : Env) (st : LoopState) (s : SNode) :
    (processStruct env st s).bmasks
      = if s.sid ∈ env.regions then
          st.bmasks ++ [(s.sid,
            boundaryMaskOf (maskFromSelected env
              (if s.sid ≠ 997 then selectedPoints env s.voxelPoints else st.sel)))]
        else st.bmasks := by
  rw [processStruct]
  by_cases hreg : s.sid ∈ env.regions <;> simp [hreg]

/-! ## Area-fold characterization (for the depth-order claim) -/

lemma runFold_area (env : Env) (l : List SNode) (st : LoopState) (p : Pix)
    (hroot : ∀ c ∈ l, c.sid ≠ 997) :
    (l.foldl (processStruct env) st).areaImg p
      = lastCoverColor env p l (st.areaImg p) := by
  induction l generalizing st with
  | nil => rfl
  | cons c rest ih =>
      rw [List.foldl_cons, lastCoverColor,
        ih _ (fun x hx => hroot x (List.mem_cons_of_mem c hx))]
      congr 1
      rw [processStruct_areaImg, if_pos (hroot c (List.mem_cons_self c rest))]
      rfl

lemma lastCoverColor_of_uncovered (env : Env) (p : Pix) (l : List SNode) (d : RGB)
    (h : ∀ c ∈ l, p ∉ maskOf env c) :
    lastCoverColor env p l d = d := by
  induction l generalizing d with
  | nil => rfl
  | cons c rest ih =>
      rw [lastCoverColor, if_neg (h c (List.mem_cons_self c rest))]
      exact ih d (fun x hx => h x (List.mem_cons_of_mem c hx))

lemma lastCoverColor_last (env : Env) (p : Pix) (a b : SNode)
    (hlen : a.ancestors.length < b.ancestors.length)
    (hpb : p ∈ maskOf env b) :
    ∀ (l : List SNode) (d : RGB), List.Sorted depthLE l →
      (∀ c ∈ l, p ∈ maskOf env c → c = a ∨ c = b) → b ∈ l →
      lastCoverColor env p l d = b.color := by
  intro l
  induction l with
  | nil => intro d _ _ hb; cases hb
  | cons c rest ih =>
      intro d hsort hcov hb
      rw [lastCoverColor]
      by_cases hbr : b ∈ rest
      · exact ih _ ((List.sorted_cons.mp hsort).2)
          (fun x hx hpx => hcov x (List.mem_cons_of_mem c hx) hpx) hbr
      · have hcb : b = c := by
          rcases List.mem_cons.mp hb with h | h
          · exact h
          · exact absurd h hbr
        subst hcb
        rw [if_pos hpb]
        apply lastCoverColor_of_uncovered
        intro x hx hpx
        rcases hcov x (List.mem_cons_of_mem b hx) hpx with h1 | h1
        · subst h1
          have hle := (List.sorted_cons.mp hsort).1 x hx
          rw [depthLE] at hle
          omega
        · subst h1
          exact hbr hx

/-! ## Frame lemmas (for the untouched-pixel claim) -/

lemma masks_grow (env : Env) (l : List SNode) (st : LoopState) (e : ℤ × Finset Pix)
    (he : e ∈ st.masks) : e ∈ (l.foldl (processStruct env) st).masks := by
  induction l generalizing st with
  | nil => exact he
  | cons c rest ih =>
      rw [List.foldl_cons]
      apply ih
      rw [processStruct_masks]
      exact List.mem_append_left _ he

lemma bmasks_grow (env : Env) (l : List SNode) (st : LoopState) (e : ℤ × Finset Pix)
    (he : e ∈ st.bmasks) : e ∈ (l.foldl (processStruct env) st).bmasks := by
  induction l generalizing st with
  | nil => exact he
  | cons c rest ih =>
      rw [List.foldl_cons]
      apply ih
      rw [processStruct_bmasks]
      by_cases hreg : c.sid ∈ env.regions
      · rw [if_pos hreg]
        exact List.mem_append_left _ he
      · rw [if_neg hreg]
        exact he

lemma fold_area_frame (env : Env) (l : List SNode) (st : LoopState) (p : Pix)
    (h : ∀ e ∈ (l.foldl (processStruct env) st).masks, p ∉ e.2) :
    (l.foldl (processStruct env) st).areaImg p = st.areaImg p := by
  induction l generalizing st with
  | nil => rfl
  | cons c rest ih =>
      rw [List.foldl_cons] at h ⊢
      rw [ih _ h]
      have hm : (c.sid,
          maskFromSelected env
            (if c.sid ≠ 997 then selectedPoints env c.voxelPoints else st.sel))
          ∈ (rest.foldl (processStruct env) (processStruct env st c)).masks := by
        apply masks_grow
        rw [processStruct_masks]
        exact List.mem_append_right _ (List.mem_singleton_self _)
      have hpm := h _ hm
      rw [processStruct_areaImg]
      simp only [paintMask]
      rw [if_neg hpm]

lemma fold_boundary_frame (env : Env) (l : List SNode) (st : LoopState) (p : Pix)
    (h : ∀ e ∈ (l.foldl (processStruct env) st).bmasks, p ∉ e.2) :
    (l.foldl (processStruct env) st).boundaryImg p = st.boundaryImg p := by
  induction l generalizing st with
  | nil => rfl
  | cons c rest ih =>
      rw [List.foldl_cons] at h ⊢
      rw [ih _ h]
      rw [processStruct_boundaryImg]
      by_cases hreg : c.sid ∈ env.regions
      · have hm : (c.sid,
            boundaryMaskOf (maskFromSelected env
              (if c.sid ≠ 997 then selectedPoints env c.voxelPoints else st.sel)))
            ∈ (rest.foldl (processStruct env) (processStruct env st c)).bmasks := by
          apply bmasks_grow
          rw [processStruct_bmasks, if_pos hreg]
          exact List.mem_append_right _ (List.mem_singleton_self _)
        have hpm := h _ hm
        rw [if_pos hreg]
        simp only [paintMask]
        rw [if_neg hpm]
      · rw [if_neg hreg]

/-! ## Union-loop lemmas -/

lemma addRegions_mem_left (rs : List ℤ) (structs : List ℤ) (s : ℤ)
    (hs : s ∈ structs) : s ∈ addRegions structs rs := by
  induction rs generalizing structs with
  | nil => exact hs
  | cons x xs ih =>
      rw [addRegions, List.foldl_cons]
      by_cases hx : x ∈ structs
      · rw [if_pos hx]
        exact ih structs hs
      · rw [if_neg hx]
        exact ih _ (List.mem_append_left _ hs)

/-! ## Concrete-instance evaluation lemmas -/

lemma selA : selectedPoints envA [((1 : ℚ), (1 : ℚ), (4 : ℚ))]
    = [((25 : ℚ), (25 : ℚ), (100 : ℚ))] := by
  have htf : transformPoints envA.disp envA.aff [((1 : ℚ), (1 : ℚ), (4 : ℚ))]
      = [((25 : ℚ), (25 : ℚ), (100 : ℚ))] := by
    rw [transformPoints]
    simp [envA, dZero, affId, dispApply, addP, scaleMul, Affine.apply]
    norm_num
  rw [selectedPoints, htf, selectForSection]
  have hsec : sectionIndex (zCoord ((25 : ℚ), (25 : ℚ), (100 : ℚ))) = 1 := by
    rw [zCoord, sectionIndex, roundHalfEven]
    norm_num
  simp [List.filter, hsec, envA]

lemma blankA : blankOf 3 3 (sizeConst (16/25))
    (List.map (mapToPixel (16/25)) [((25 : ℚ), (25 : ℚ), (100 : ℚ))])
    = footprint 3 3 (1, 1) (2, 2) := by
  have hmap : mapToPixel (16/25) ((25 : ℚ), (25 : ℚ), (100 : ℚ)) = ((1 : ℚ), (1 : ℚ)) := by
    rw [mapToPixel]
    norm_num
  have hsize : sizeConst (16/25) = 1 := by
    rw [sizeConst]
    norm_num
  rw [List.map_cons, List.map_nil, hmap, hsize, blankOf, List.foldl_cons, List.foldl_nil]
  have hr1 : roundPix ((1 : ℚ), (1 : ℚ)) = (1, 1) := by
    rw [roundPix, roundHalfEven]
    norm_num
  have hr2 : roundPix ((1 : ℚ) + 1, (1 : ℚ) + 1) = (2, 2) := by
    rw [roundPix, roundHalfEven]
    norm_num
  rw [hr1, hr2, Finset.empty_union]

lemma maskA : maskOf envA nodeA = areaOf 3 3 (footprint 3 3 (1, 1) (2, 2)) := by
  rw [maskOf, nodeA]
  simp only []
  rw [selA, maskFromSelected]
  show areaOf 3 3 (blankOf 3 3 (sizeConst (16/25))
    (List.map (mapToPixel (16/25)) [((25 : ℚ), (25 : ℚ), (100 : ℚ))])) = _
  rw [blankA]

lemma maskB : maskOf envA nodeB = areaOf 3 3 (footprint 3 3 (1, 1) (2, 2)) := by
  rw [maskOf, nodeB]
  simp only []
  rw [selA, maskFromSelected]
  show areaOf 3 3 (blankOf 3 3 (sizeConst (16/25))
    (List.map (mapToPixel (16/25)) [((25 : ℚ), (25 : ℚ), (100 : ℚ))])) = _
  rw [blankA]

lemma maskC : maskOf envA nodeC = areaOf 3 3 (footprint 3 3 (1, 1) (2, 2)) := by
  rw [maskOf, nodeC]
  simp only []
  rw [selA, maskFromSelected]
  show areaOf 3 3 (blankOf 3 3 (sizeConst (16/25))
    (List.map (mapToPixel (16/25)) [((25 : ℚ), (25 : ℚ), (100 : ℚ))])) = _
  rw [blankA]

lemma fillA : fillHoles 3 3 (footprint 3 3 (1, 1) (2, 2))
    = footprint 3 3 (1, 1) (2, 2) := by
  decide

lemma dilA : binDilate 3 3 (footprint 3 3 (1, 1) (2, 2))
    = {((1 : ℤ), (1 : ℤ)), (0, 1), (2, 1), (1, 0), (1, 2)} := by
  decide

lemma memAreaA : ((1 : ℤ), (1 : ℤ)) ∈ areaOf 3 3 (footprint 3 3 (1, 1) (2, 2)) := by
  rw [areaOf, fillA, dilA]
  decide

/-! ## Claim C1: section-plane selection -/

/-- Claim C1, counterexample to the concrete part: the third demonstration
point, with transformed z-coordinate 6250, is NOT rejected: `6250/100 =
62.5` and `np.round` rounds the tie to the even integer 62, which equals
the target section, so the point is selected. -/
theorem selection_demo_third_point_selected :
    sectionIndex (6250 : ℚ) = 62
    ∧ ((0 : ℚ), (0 : ℚ), (6250 : ℚ)) ∈ selectForSection 62 demoZ := by
  refine ⟨sectionIndex_demo3, ?_⟩
  rw [selectForSection_demo]
  simp [demoZ]

/-- Claim C1 (amended): a transformed point is selected for the target
section exactly when its z-coordinate divided by the inter-section spacing
100 and rounded (half to even) equals the target section index; for the
demonstration z-coordinates `[6185.3, 6201.8, 6250.0]` with target section
62 all three points are selected, the third because `62.5` rounds to the
even integer 62. -/
theorem selection_round_half_even (secNo : ℤ) (l : List Point3) (q : Point3) :
    (q ∈ selectForSection secNo l ↔ q ∈ l ∧ sectionIndex (zCoord q) = secNo)
    ∧ selectForSection 62 demoZ = demoZ := by
  refine ⟨?_, selectForSection_demo⟩
  simp [selectForSection, List.mem_filter]

/-- Claim C1, witness: the amended characterization applied at the third
demonstration point. -/
theorem selection_round_half_even_check :
    ((0 : ℚ), (0 : ℚ), (6250 : ℚ)) ∈ selectForSection 62 demoZ :=
  (selection_round_half_even 62 demoZ ((0 : ℚ), (0 : ℚ), (6250 : ℚ))).1.mpr
    ⟨by simp [demoZ], sectionIndex_demo3⟩

/-! ## Claim C2: 2D projection scale -/

/-- Claim C2, counterexample: with image physical-pixel-size 1, the code
maps the physical point `(1, 1, 0)` to pixel coordinates `(1/16, 1/16)`
(scale `twoD/2^4 = 1/16`), which is not the spec's "(image
physical-pixel-size / native volume resolution) adjusted for downsample
level" under either reading of "adjusted" (`(1/25)/16` or `(1/25)·16`). -/
theorem projection_spec_scale_mismatch :
    mapToPixel (codeTwoD 1) (1, 1, 0) ≠ (1 * specScale 1, 1 * specScale 1)
    ∧ mapToPixel (codeTwoD 1) (1, 1, 0)
        ≠ (1 * ((1 : ℚ) / 25 * 2 ^ 4), 1 * ((1 : ℚ) / 25 * 2 ^ 4)) := by
  constructor <;>
    · rw [mapToPixel, codeTwoD]
      norm_num [specScale, Prod.ext_iff]

/-- Claim C2 (amended): each selected point's pixel coordinates are its
transformed `(x, y)` physical coordinates multiplied by the single scale
factor `1/(pixel-size · 2^4)`, i.e. the reciprocal of the image
physical-pixel-size adjusted for the downsample level; the native volume
resolution 25 enters only the footprint increment
`size = 25 · twoD / 2^4`, not the point scale. -/
theorem projection_scale_reciprocal (P : ℚ) (hP : P ≠ 0) (p : Point3) :
    mapToPixel (codeTwoD P) p
      = (p.1 * (1 / (P * 2 ^ 4)), p.2.1 * (1 / (P * 2 ^ 4)))
    ∧ sizeConst (codeTwoD P) = 25 * (1 / (P * 2 ^ 4)) := by
  rw [mapToPixel, codeTwoD, sizeConst]
  constructor
  · rw [Prod.ext_iff]
    constructor <;> field_simp
  · field_simp

/-- Claim C2, witness: the amended scale at pixel size 2. -/
theorem projection_scale_reciprocal_check :
    mapToPixel (codeTwoD 2) (32, 64, 0)
      = ((32 : ℚ) * (1 / (2 * 2 ^ 4)), (64 : ℚ) * (1 / (2 * 2 ^ 4))) :=
  (projection_scale_reciprocal 2 (by norm_num) (32, 64, 0)).1

/-! ## Claim C3: regions-of-interest union -/

/-- Claim C3: every requested region id is a member of the structure list
after the cell-30 union loop, whatever the discovered structure ids were
(in particular when the id was not discovered).  The loop itself is
correct; see the run results for the `regions` naming slip at cell-30. -/
theorem roi_union_superset (structs regionIds : List ℤ) (r : ℤ)
    (hr : r ∈ regionIds) : r ∈ addRegions structs regionIds := by
  induction regionIds generalizing structs with
  | nil => cases hr
  | cons x xs ih =>
      rw [addRegions, List.foldl_cons]
      rcases List.mem_cons.mp hr with h | h
      · subst h
        by_cases hx : r ∈ structs
        · rw [if_pos hx]
          exact addRegions_mem_left xs structs r hx
        · rw [if_neg hx]
          exact addRegions_mem_left xs _ r (by simp)
      · by_cases hx : x ∈ structs
        · rw [if_pos hx]; exact ih structs h
        · rw [if_neg hx]; exact ih _ h

/-- Claim C3, witness: the concrete regions of interest map to ids
`[1008, 1014, 218, 1029, 215]`, and all five are members of the union with
a discovered list `[997, 8]` that contains none of them. -/
theorem roi_union_superset_check :
    regions_of_interest = [1008, 1014, 218, 1029, 215]
    ∧ (1008 : ℤ) ∈ addRegions [997, 8] regions_of_interest
    ∧ (1014 : ℤ) ∈ addRegions [997, 8] regions_of_interest
    ∧ (218 : ℤ) ∈ addRegions [997, 8] regions_of_interest
    ∧ (1029 : ℤ) ∈ addRegions [997, 8] regions_of_interest
    ∧ (215 : ℤ) ∈ addRegions [997, 8] regions_of_interest := by
  refine ⟨by decide, ?_, ?_, ?_, ?_, ?_⟩ <;>
    exact roi_union_superset [997, 8] regions_of_interest _ (by decide)

/-! ## Claim C4: depth-ordered painting -/

/-- Claim C4, counterexample: with three nested non-root structures
(parent `nodeA`, child `nodeB`, grandchild `nodeC`) all rasterizing to the
pixel `(1, 1)`, the ancestor/descendant pair `(nodeA, nodeB)` both cover
that pixel, yet the final area image holds the grandchild's color there,
not the pair's descendant's: a deeper structure painted later overwrites
the descendant, so "every pixel covered by both masks holds the
descendant's color" fails as stated. -/
theorem deepest_cover_overwrites_pair :
    ((1 : ℤ), (1 : ℤ)) ∈ maskOf envA nodeA
    ∧ ((1 : ℤ), (1 : ℤ)) ∈ maskOf envA nodeB
    ∧ nodeA.sid ∈ nodeB.ancestors ∧ nodeA.sid ≠ nodeB.sid
    ∧ (∀ c ∈ [nodeC, nodeB, nodeA], c.sid ≠ 997)
    ∧ (runPipeline envA [nodeC, nodeB, nodeA]).areaImg (1, 1) = nodeC.color
    ∧ nodeC.color ≠ nodeB.color := by
  have hmA : ((1 : ℤ), (1 : ℤ)) ∈ maskOf envA nodeA := by
    rw [maskA]; exact memAreaA
  have hmB : ((1 : ℤ), (1 : ℤ)) ∈ maskOf envA nodeB := by
    rw [maskB]; exact memAreaA
  have hmC : ((1 : ℤ), (1 : ℤ)) ∈ maskOf envA nodeC := by
    rw [maskC]; exact memAreaA
  have hsort : sortStructs [nodeC, nodeB, nodeA] = [nodeA, nodeB, nodeC] := by
    decide
  refine ⟨hmA, hmB, by decide, by decide, by decide, ?_, by decide⟩
  rw [runPipeline, runLoop, hsort,
    runFold_area envA [nodeA, nodeB, nodeC] (initState envA) (1, 1) (by decide)]
  rw [lastCoverColor, if_pos hmA, lastCoverColor, if_pos hmB, lastCoverColor, if_pos hmC]
  rfl

/-- Claim C4 (amended): the cell-34 loop rasterizes the structures in
ascending order of ancestor-chain length, and when a strict ancestor `a`
and its descendant `b` (the AllenSDK ancestor chain of the descendant
contains the ancestor's id and is strictly longer) both cover a pixel that
NO OTHER structure covers, the final area image holds the descendant's
canonical color there, regardless of the order the structures were
discovered in; in general a pixel holds the color of the last covering
structure in depth order, so a deeper third structure may overwrite the
pair's descendant (see the counterexample).  The hypothesis `hroot`
excludes the root structure 997, whose branch of the loop reuses the
cell-28 root selection instead of rasterizing its own mask. -/
theorem depth_ordered_painting (env : Env) (l : List SNode) (a b : SNode) (p : Pix)
    (hroot : ∀ c ∈ l, c.sid ≠ 997)
    (ha : a ∈ l) (hb : b ∈ l)
    (hanc : a.sid ∈ b.ancestors ∧ a.sid ≠ b.sid)
    (hlen : a.ancestors.length < b.ancestors.length)
    (hpa : p ∈ maskOf env a) (hpb : p ∈ maskOf env b)
    (hothers : ∀ c ∈ l, c ≠ a → c ≠ b → p ∉ maskOf env c) :
    List.Sorted depthLE (sortStructs l)
    ∧ (runPipeline env l).areaImg p = b.color := by
  have hperm : List.Perm (List.insertionSort depthLE l) l :=
    List.perm_insertionSort depthLE l
  constructor
  · rw [sortStructs]
    exact List.sorted_insertionSort depthLE l
  · rw [runPipeline, runLoop]
    have hroot' : ∀ c ∈ sortStructs l, c.sid ≠ 997 := by
      intro c hc
      rw [sortStructs] at hc
      exact hroot c (hperm.subset hc)
    rw [runFold_area env (sortStructs l) (initState env) p hroot']
    apply lastCoverColor_last env p a b hlen hpb
    · rw [sortStructs]
      exact List.sorted_insertionSort depthLE l
    · intro c hc hpc
      rw [sortStructs] at hc
      by_cases h1 : c = a
      · exact Or.inl h1
      · by_cases h2 : c = b
        · exact Or.inr h2
        · exact absurd hpc (hothers c (hperm.subset hc) h1 h2)
    · rw [sortStructs]
      exact hperm.mem_iff.mpr hb

/-- Claim C4, witness: parent `nodeA` (id 5) and child `nodeB` (id 6) both
rasterize to the pixel `(1, 1)` of a 3×3 image; even with the child listed
first, the painted color at `(1, 1)` is the child's. -/
theorem depth_ordered_painting_check :
    (runPipeline envA [nodeB, nodeA]).areaImg (1, 1) = nodeB.color :=
  (depth_ordered_painting envA [nodeB, nodeA] nodeA nodeB (1, 1)
    (by decide) (by decide) (by decide) (by decide) (by decide)
    (by rw [maskA]; exact memAreaA)
    (by rw [maskB]; exact memAreaA)
    (by
      intro c hc h1 h2
      fin_cases hc
      · exact absurd rfl h2
      · exact absurd rfl h1)).2

/-! ## Claim C5: coordinate mapper composition -/

/-- Claim C5: the cell-28/cell-34 transform chain maps each voxel point
`p` to `affine(deformation(25 * p))`: the point is scaled by the volume
resolution 25, the displacement-field transform (point plus sampled field
vector) is applied, and the affine transform is applied after it. -/
theorem transform_chain_order (d : Point3 → Point3) (A : Affine)
    (pts : List Point3) :
    (transformPoints d A pts).length = pts.length
    ∧ ∀ (i : ℕ) (p : Point3), pts[i]? = some p →
        (transformPoints d A pts)[i]?
          = some (A.apply (dispApply d (scaleMul 25 p))) := by
  constructor
  · rw [transformPoints]
    simp
  · intro i p hp
    rw [transformPoints]
    simp [List.getElem?_map, hp]

/-- Claim C5, witness: the chain evaluated on one concrete point with a
sample displacement field and affine transform. -/
theorem transform_chain_order_check :
    (transformPoints dWit affWit [(1, 2, 3)])[0]?
      = some (affWit.apply (dispApply dWit (scaleMul 25 (1, 2, 3)))) :=
  (transform_chain_order dWit affWit [(1, 2, 3)]).2 0 (1, 2, 3) rfl

/-! ## Claim C6: boundary containment -/

/-- Claim C6: for any non-empty area raster, the boundary raster of
cell-34 -- the area minus its six-fold iterated binary erosion -- is
contained in the area raster, and so is the six-fold erosion itself. -/
theorem boundary_within_area (area : Finset Pix) (hne : area.Nonempty) :
    boundaryMaskOf area ⊆ area ∧ binErode^[6] area ⊆ area :=
  ⟨Finset.sdiff_subset, binErode_iter_subset 6 area⟩

/-- Claim C6, witness: the containment at a concrete one-pixel area. -/
theorem boundary_within_area_check :
    boundaryMaskOf {((0 : ℤ), (0 : ℤ))} ⊆ {((0 : ℤ), (0 : ℤ))} :=
  (boundary_within_area {((0 : ℤ), (0 : ℤ))} (Finset.singleton_nonempty _)).1

/-! ## Claim C7: empty-region case -/

/-- Claim C7: a (non-root) structure none of whose transformed voxel
points falls on the target section paints no pixel: the cell-34 iteration
leaves both the area image and the boundary image unchanged, and records
an empty raster for the structure. -/
theorem empty_region_no_paint (env : Env) (st : LoopState) (s : SNode)
    (hs : s.sid ≠ 997)
    (hempty : selectedPoints env s.voxelPoints = []) :
    (processStruct env st s).areaImg = st.areaImg
    ∧ (processStruct env st s).boundaryImg = st.boundaryImg
    ∧ (processStruct env st s).masks = st.masks ++ [(s.sid, ∅)] := by
  rw [processStruct]
  simp only [if_pos hs, hempty, maskFromSelected_nil, boundaryMaskOf_empty,
    paintMask_empty]
  by_cases hreg : s.sid ∈ env.regions <;> simp [hreg]

/-- Claim C7, witness: a structure with an empty voxel list leaves the
images of a concrete 1×1 run unchanged. -/
theorem empty_region_no_paint_check :
    (processStruct envB (initState envB) nodeEmpty).areaImg = (initState envB).areaImg
    ∧ (processStruct envB (initState envB) nodeEmpty).boundaryImg
        = (initState envB).boundaryImg
    ∧ (processStruct envB (initState envB) nodeEmpty).masks
        = (initState envB).masks ++ [(nodeEmpty.sid, ∅)] :=
  empty_region_no_paint envB (initState envB) nodeEmpty (by decide) rfl

/-! ## Claim C8: determinism -/

/-- Claim C8: the pipeline execution relation is deterministic: two runs
over the same environment, structure-tree lookup and discovered ids
produce the same per-structure rasters and the same area, boundary and
composite images. -/
theorem pipeline_deterministic (env : Env) (lookup : ℤ → SNode) (ids : List ℤ)
    (o1 o2 : RunOut) (h1 : Exec env lookup ids o1) (h2 : Exec env lookup ids o2) :
    o1 = o2 := by
  cases h1 with
  | run nodes1 ordered1 st1 comp1 hn1 ho1 hs1 hc1 =>
      cases h2 with
      | run nodes2 ordered2 st2 comp2 hn2 ho2 hs2 hc2 =>
          subst hn1
          subst hn2
          subst ho1
          subst ho2
          subst hs1
          subst hs2
          subst hc1
          subst hc2
          rfl

/-- Claim C8, witness: determinism applied to two executions of a concrete
run. -/
theorem pipeline_deterministic_check : outB = outB :=
  pipeline_deterministic envB lookupEmpty [] outB outB
    (Exec.run envB lookupEmpty [] _ _ _ _ rfl rfl rfl rfl)
    (Exec.run envB lookupEmpty [] _ _ _ _ rfl rfl rfl rfl)

/-! ## Claim C9: output files -/

/-- Claim C9: the three output files are saved sequentially in the fixed
order area, boundary, composite, with no error handling: a failure after
the second save leaves exactly `area.png` and `boundary.png` persisted,
which is neither none nor all three; only a completed run persists all
three. -/
theorem sequential_saves_leave_partial_outputs :
    persistedAfter 2 = ["area.png", "boundary.png"]
    ∧ persistedAfter 2 ≠ []
    ∧ persistedAfter 2 ≠ outputSaveOrder
    ∧ persistedAfter 3 = outputSaveOrder := by
  refine ⟨rfl, ?_, ?_, rfl⟩ <;> decide

/-! ## Claim C10: frame property -/

/-- Claim C10: both output images start as copies of the section image;
a pixel outside every rasterized area mask keeps its source value in the
area image, and -- independently -- a pixel outside every painted
region-of-interest boundary mask keeps its source value in the boundary
image (even when some area mask covers it, since the loop writes the
boundary image only under boundary masks). -/
theorem untouched_pixels_preserved (env : Env) (l : List SNode) (p : Pix) :
    ((∀ e ∈ (runPipeline env l).masks, p ∉ e.2) →
      (runPipeline env l).areaImg p = env.srcImg p)
    ∧ ((∀ e ∈ (runPipeline env l).bmasks, p ∉ e.2) →
      (runPipeline env l).boundaryImg p = env.srcImg p) := by
  constructor
  · intro hA
    rw [runPipeline, runLoop] at hA ⊢
    exact fold_area_frame env (sortStructs l) (initState env) p hA
  · intro hB
    rw [runPipeline, runLoop] at hB ⊢
    exact fold_boundary_frame env (sortStructs l) (initState env) p hB

/-- Claim C10, witness: the boundary image of the concrete `envA` run
keeps its source value at `(1, 1)` -- a pixel the structures' area masks
do cover, but no boundary mask does (no region of interest) -- and the
area image of the `envB` run keeps its source value at `(0, 0)`, outside
its single empty area mask. -/
theorem untouched_pixels_preserved_check :
    (runPipeline envA [nodeB, nodeA]).boundaryImg (1, 1) = envA.srcImg (1, 1)
    ∧ (runPipeline envB [nodeEmpty]).areaImg (0, 0) = envB.srcImg (0, 0) :=
  ⟨(untouched_pixels_preserved envA [nodeB, nodeA] (1, 1)).2 (by decide),
   (untouched_pixels_preserved envB [nodeEmpty] (0, 0)).1 (by decide)⟩

end AtlasMap
